import Mathlib

/-!
Verification of the snapshot retention / backup tool (Go sources:
config.go, main.go). The Go code is shallowly embedded: `time.Time` and
`time.Duration` become `Int` (nanoseconds; the zero time is 0),
fallible operations return `Except`/`Option`, and panics become `none`.
A Go slice of pointers (`[]*snap`) is modelled by its backing array
(`List (Option Snap)`, fixed length = capacity, `nil` = `none`)
together with the visible slice length.
-/

/-- A snapshot record; models Go struct `snap` (main.go): storage path,
subvolume (content) path and creation time. -/
structure Snap where
  path : String
  subvolPath : String
  created : Int
  deriving DecidableEq, Repr

/-- A retention bucket; models Go struct `bucket` (config.go). The slice
`b.snaps` is modelled by its backing array `arr` (length = `cap(b.snaps)`,
which never changes) plus the visible slice length `len`. -/
structure Bucket where
  interval : Int
  arr : List (Option Snap)
  len : Nat
  deriving DecidableEq, Repr

/-- `make([]*snap, 0, size)`: an empty slice over a zeroed backing array. -/
def mkBucket (interval : Int) (size : Nat) : Bucket :=
  ⟨interval, List.replicate size none, 0⟩

/-- Models `newBucket` (config.go:132-140): panics (`none`) unless the
size is positive. -/
def newBucket (interval : Int) (size : Int) : Option Bucket :=
  if size ≤ 0 then none else some (mkBucket interval size.toNat)

/-- Models Go struct `bucketJSON` (config.go): optional fields as decoded
from JSON. -/
structure BucketJSON where
  interval : Option Int
  size : Option Int
  deriving DecidableEq, Repr

/-- Models `bucketJSON.validate` (config.go:94-102): both fields must be
present; their values are not inspected. -/
def BucketJSON.validate (b : BucketJSON) : Except String Unit :=
  match b.interval with
  | none => .error "Interval is missing"
  | some _ =>
    match b.size with
    | none => .error "Size is missing"
    | some _ => .ok ()

abbrev Cascade := List Bucket

def newCascade : Cascade := []

/-- Models `cascade.addBucket` (config.go:153-158): dereferences
`b.Interval` and `b.Size` (nil pointer → panic → `none`); `make` with a
negative capacity panics (`none`); size 0 is accepted as is. -/
def Cascade.addBucket (c : Cascade) (b : BucketJSON) : Option Cascade :=
  match b.interval, b.size with
  | some i, some n => if n < 0 then none else some (c ++ [mkBucket i n.toNat])
  | _, _ => none

/-- A cascade built directly from (interval, capacity) tier pairs, as
`run` (main.go) does via repeated `addBucket` on validated config. -/
def mkCascade (tiers : List (Int × Nat)) : Cascade :=
  tiers.map (fun t => mkBucket t.1 t.2)

/-- Loop state of the inner loop of `cascade.insert` (config.go:165-193)
while one bucket processes its input: the bucket's backing array and
visible length, the ring write index `insertAt`, the `prevCreated`
cursor, the snapshots appended to `out` so far (rejections), and the
`overflow` list (displaced ring occupants). -/
structure PassState where
  arr : List (Option Snap)
  len : Nat
  insertAt : Nat
  prevCreated : Int
  rejected : List Snap
  overflow : List Snap
  deriving DecidableEq, Repr

/-- One iteration of the inner loop of `cascade.insert` for input element
`s` at index `i`:
`if (i > 0 && d < b.interval) || cap(b.snaps) == 0` append `s` to `out`;
otherwise reslice to `insertAt+1`, displace a non-nil occupant of slot
`insertAt` into `overflow`, write `s` there, advance `insertAt` modulo
capacity and update `prevCreated`. -/
def passStep (interval : Int) (i : Nat) (s : Snap) (st : PassState) : PassState :=
  if (0 < i ∧ s.created - st.prevCreated < interval) ∨ st.arr.length = 0 then
    { st with rejected := st.rejected ++ [s] }
  else
    { arr := st.arr.set st.insertAt (some s)
      len := st.insertAt + 1
      insertAt := (st.insertAt + 1) % st.arr.length
      prevCreated := s.created
      rejected := st.rejected
      -- `if t := b.snaps[insertAt]; t != nil { overflow = append(overflow, t) }`:
      -- append the occupant of the slot, if any.
      overflow := st.overflow ++ (st.arr.getD st.insertAt none).toList }

def passGo (interval : Int) : Nat → List Snap → PassState → PassState
  | _, [], st => st
  | i, s :: rest, st => passGo interval (i + 1) rest (passStep interval i s st)

/-- One bucket of the cascade processing input `inp` (the body of the
outer `for _, b := range c` loop of `cascade.insert`): `prevCreated`
starts at the zero time, `insertAt` at 0, `overflow` empty. -/
def Bucket.pass (b : Bucket) (inp : List Snap) : PassState :=
  passGo b.interval 0 inp ⟨b.arr, b.len, 0, 0, [], []⟩

def bucketOfPass (interval : Int) (p : PassState) : Bucket :=
  ⟨interval, p.arr, p.len⟩

/-- Insertion into a list that is ascending by creation time. -/
def insertSorted (s : Snap) : List Snap → List Snap
  | [] => [s]
  | x :: xs => if s.created ≤ x.created then s :: x :: xs else x :: insertSorted s xs

/-- Models `sort.Slice(in, ...created.Before...)` (ascending by creation
time). Go's sort.Slice is unstable, so the order among equal keys is
unspecified there; no property proved below depends on that order. -/
def sortByCreated (l : List Snap) : List Snap :=
  l.foldr insertSorted []

/-- Tier-by-tier loop of `cascade.insert`: each bucket consumes the
previous bucket's `overflow` as its input (`in = overflow`); rejections
are appended to `out` in processing order; after the last bucket the
leftover input is appended to `out`. The Go code reuses one slice for
`in`/`overflow`; since appends to `overflow` never overrun the elements
of `in` still to be read, explicit separate lists are equivalent. -/
def insertGo : List Bucket → List Snap → List Snap → List Bucket × List Snap
  | [], inp, out => ([], out ++ inp)
  | b :: bs, inp, out =>
    let p := b.pass inp
    let r := insertGo bs p.overflow (out ++ p.rejected)
    (bucketOfPass b.interval p :: r.1, r.2)

/-- Models `cascade.insert` (config.go:165-193): sort ascending by
creation time, then process tier by tier; returns the updated cascade
and `out` (the evicted snapshots). -/
def Cascade.insert (c : Cascade) (inp : List Snap) : Cascade × List Snap :=
  insertGo c (sortByCreated inp) []

/-- Models `cascade.reset` (config.go:195-202): `for i := range b.snaps`
nils only the first `len` entries of the slice — entries of the backing
array beyond the visible length are left untouched — then truncates the
slice to length 0. -/
def Bucket.reset (b : Bucket) : Bucket :=
  ⟨b.interval, List.replicate b.len none ++ b.arr.drop b.len, 0⟩

def Cascade.reset (c : Cascade) : Cascade := c.map Bucket.reset

/-- The non-nil entries of a backing array, in slot order. -/
def somes : List (Option Snap) → List Snap
  | [] => []
  | none :: l => somes l
  | some s :: l => s :: somes l

/-- The snapshots retained in the buckets' rings (the non-nil entries of
each backing array): exactly the snapshots a prune pass would not
delete. -/
def keptSnaps (c : Cascade) : List Snap :=
  c.flatMap (fun b => somes b.arr)

/-- The evicted output of a cascade pass, described tier by tier: each
tier contributes the snapshots it rejected, the next tier's input is
exactly the previous tier's displaced `overflow`, and whatever the last
tier displaces is appended at the end. -/
def evictedParts : List Bucket → List Snap → List Snap
  | [], inp => inp
  | b :: bs, inp => (b.pass inp).rejected ++ evictedParts bs (b.pass inp).overflow

/-! ## Backup planning (app.backup, main.go:219-295)

`need` / `have` are computed in Go through maps keyed by `created`
(timestamps are unique per profile); here they are the corresponding
filters of the source list. -/

/-- Snapshots present at the source but not at the destination. -/
def needOf (src dst : List Snap) : List Snap :=
  src.filter (fun s => ¬ dst.any (fun d => d.created = s.created))

/-- Source snapshots whose timestamp is also present at the destination
(the Go map `have` stores the source-side record). -/
def haveOf (src dst : List Snap) : List Snap :=
  src.filter (fun s => dst.any (fun d => d.created = s.created))

/-- The retention simulation of `app.backup`: the evicted result of
`a.cascade.insert(append(dst, needS...))` on the destination profile's
fresh cascade. -/
def backupUnwanted (c : Cascade) (dst needS : List Snap) : List Snap :=
  (c.insert (dst ++ needS)).2

/-- The sequential transfer loop of `app.backup`: skip snapshots whose
timestamp is in `unwanted`; otherwise transfer with the current `haveS`
as bases and append the snapshot to `haveS` afterwards. Each attempted
transfer is recorded as (snapshot, bases it was given). Transfers are
assumed to succeed (a failing transfer aborts the Go run). -/
def backupLoop : List Snap → List Int → List Snap → List (Snap × List Snap)
  | [], _, _ => []
  | s :: rest, uw, haveS =>
    if s.created ∈ uw then backupLoop rest uw haveS
    else (s, haveS) :: backupLoop rest uw (haveS ++ [s])

/-- Models the planning and transfer sequence of `app.backup`
(main.go:219-295) for destination cascade `c`, source snapshots `src`
and destination snapshots `dst`. -/
def backupTransfers (c : Cascade) (src dst : List Snap) : List (Snap × List Snap) :=
  let needS := sortByCreated (needOf src dst)
  let uw := (backupUnwanted c dst needS).map (fun s => s.created)
  backupLoop needS uw (sortByCreated (haveOf src dst))

/-! ## Single-snapshot transfer (app.backupSingle, main.go:297-378) -/

/-- The `parentPath` computation of `app.backupSingle` (main.go:337-350):
iterate over `have`, remembering the subvolume path of every base whose
creation time is before `s`'s; the last one wins ("" if none). -/
def sendParentPath (haveS : List Snap) (s : Snap) : String :=
  haveS.foldl (fun acc hs => if hs.created < s.created then hs.subvolPath else acc) ""

/-- The `-c` reference arguments: one pair per element of `have`,
in list order. -/
def sendRefArgs (haveS : List Snap) : List String :=
  haveS.flatMap (fun hs => ["-c", hs.subvolPath])

/-- The full `btrfs send` argument list built by `app.backupSingle`. -/
def sendArgs (haveS : List Snap) (s : Snap) : List String :=
  ["send"] ++ sendRefArgs haveS
    ++ (if sendParentPath haveS s = "" then [] else ["-p", sendParentPath haveS s])
    ++ [s.subvolPath]

/-! ## Configuration (config.go) -/

/-- Models Go struct `profileJSON` (config.go): optional fields as
decoded from JSON. There is no `Backup` field in `profileJSON`; a
profile description carrying a source-profile reference instead of a
subvolume simply decodes with `Subvolume == nil`. -/
structure ProfileJSON where
  subvolume : Option String
  storage : Option String
  buckets : List BucketJSON
  deriving DecidableEq, Repr

/-- The bucket-validation loop of `profileJSON.validate`: first error
wins (error message details are abbreviated). -/
def validateBuckets : List BucketJSON → Except String Unit
  | [] => .ok ()
  | b :: bs =>
    match b.validate with
    | .error e => .error e
    | .ok _ => validateBuckets bs

/-- Models `profileJSON.validate` (config.go:76-87): `Subvolume` must be
set, then every bucket must validate. -/
def ProfileJSON.validate (p : ProfileJSON) : Except String Unit :=
  match p.subvolume with
  | none => .error "Subvolume missing"
  | some _ => validateBuckets p.buckets

/-- The profile table; Go's map is modelled as an association list
(map iteration order only affects which error is reported first, not
whether validation succeeds). -/
abbrev ConfigJSON := List (String × ProfileJSON)

/-- Models `configJSON.validate` (config.go:61-68). -/
def validateProfiles : ConfigJSON → Except String Unit
  | [] => .ok ()
  | (_, p) :: rest =>
    match p.validate with
    | .error e => .error e
    | .ok _ => validateProfiles rest

/-- Models `loadConfig` (config.go:104-118). Opening a path in the
working directory and JSON-decoding its contents is abstracted as
`fs : path → decoded config or error` (the result of `os.Open` plus
`json.Decode` depends only on the path and the directory contents).
Note: the Go body opens the fixed path "config.json"; the `filename`
parameter is never used. -/
def loadConfig (filename : String) (fs : String → Except String ConfigJSON) :
    Except String ConfigJSON :=
  match fs "config.json" with
  | .error e => .error e
  | .ok cfg =>
    match validateProfiles cfg with
    | .error e => .error e
    | .ok _ => .ok cfg

/-! ## Verification artifacts (not part of the embedding) -/

/-- The slot-index invariant of the inner loop of `cascade.insert`: the
ring write index stays within the backing array (trivially maintained by
a capacity-zero bucket, which never writes). -/
def PassInv (st : PassState) : Prop :=
  st.arr.length = 0 ∨ st.insertAt < st.arr.length

/-- The multiset of snapshots a pass state accounts for: ring occupants,
rejections and displaced overflow. -/
def passMeasure (st : PassState) : Multiset Snap :=
  (somes st.arr : Multiset Snap) + (st.rejected : Multiset Snap)
    + (st.overflow : Multiset Snap)

/-- Separation invariant of one bucket pass: every ring occupant is no
newer than the `prevCreated` cursor, and any two distinct occupants are
at least `interval` apart. -/
def PassSep (interval : Int) (st : PassState) : Prop :=
  (∀ x ∈ somes st.arr, x.created ≤ st.prevCreated)
  ∧ ∀ x ∈ somes st.arr, ∀ y ∈ somes st.arr, x ≠ y →
      interval ≤ x.created - y.created ∨ interval ≤ y.created - x.created

/-- The bases strictly older than the snapshot being sent, in list
order. -/
def olderBases (haveS : List Snap) (s : Snap) : List Snap :=
  haveS.filter (fun hs => hs.created < s.created)

/-- The subvolume path of the base that appears last in the bases list
among those strictly older than `s` ("" if there is none). -/
def lastOlderPath (haveS : List Snap) (s : Snap) : String :=
  ((olderBases haveS s).map Snap.subvolPath).getLastD ""

/-! ## General lemmas -/

theorem insertSorted_perm (s : Snap) (l : List Snap) :
    (insertSorted s l).Perm (s :: l) := by
  induction l with
  | nil => rfl
  | cons x xs ih =>
    by_cases h : s.created ≤ x.created
    · simp [insertSorted, h]
    · simp only [insertSorted, if_neg h]
      exact (List.Perm.cons x ih).trans (List.Perm.swap s x xs)

theorem sortByCreated_perm (l : List Snap) : (sortByCreated l).Perm l := by
  induction l with
  | nil => rfl
  | cons x xs ih =>
    exact (insertSorted_perm x (sortByCreated xs)).trans (List.Perm.cons x ih)

theorem mem_insertSorted {y s : Snap} {l : List Snap} (h : y ∈ insertSorted s l) :
    y = s ∨ y ∈ l := by
  have := (insertSorted_perm s l).mem_iff.mp h
  simpa using this

theorem insertSorted_pairwise {s : Snap} {l : List Snap}
    (h : List.Pairwise (fun a b => a.created ≤ b.created) l) :
    List.Pairwise (fun a b => a.created ≤ b.created) (insertSorted s l) := by
  induction l with
  | nil => simp [insertSorted]
  | cons x xs ih =>
    rw [List.pairwise_cons] at h
    obtain ⟨hx, hxs⟩ := h
    by_cases hc : s.created ≤ x.created
    · rw [insertSorted, if_pos hc, List.pairwise_cons]
      refine ⟨?_, List.pairwise_cons.mpr ⟨hx, hxs⟩⟩
      intro y hy
      rcases List.mem_cons.mp hy with rfl | hy
      · exact hc
      · exact le_trans hc (hx y hy)
    · rw [insertSorted, if_neg hc, List.pairwise_cons]
      refine ⟨?_, ih hxs⟩
      intro y hy
      rcases mem_insertSorted hy with rfl | hy
      · exact le_of_lt (lt_of_not_le hc)
      · exact hx y hy

theorem sortByCreated_pairwise (l : List Snap) :
    List.Pairwise (fun a b => a.created ≤ b.created) (sortByCreated l) := by
  induction l with
  | nil => simp [sortByCreated]
  | cons x xs ih => exact insertSorted_pairwise ih

@[simp] theorem somes_nil : somes [] = [] := rfl

@[simp] theorem somes_cons_none (l : List (Option Snap)) :
    somes (none :: l) = somes l := rfl

@[simp] theorem somes_cons_some (s : Snap) (l : List (Option Snap)) :
    somes (some s :: l) = s :: somes l := rfl

@[simp] theorem somes_replicate (n : Nat) : somes (List.replicate n none) = [] := by
  induction n with
  | zero => rfl
  | succ n ih => simpa [List.replicate] using ih

theorem somes_length_le (A : List (Option Snap)) : (somes A).length ≤ A.length := by
  induction A with
  | nil => simp
  | cons a l ih =>
    cases a with
    | none => simp; omega
    | some s => simp [ih]

@[simp] theorem keptSnaps_nil : keptSnaps [] = [] := rfl

@[simp] theorem keptSnaps_cons (b : Bucket) (bs : List Bucket) :
    keptSnaps (b :: bs) = somes b.arr ++ keptSnaps bs := by
  simp [keptSnaps]

@[simp] theorem keptSnaps_mkCascade (tiers : List (Int × Nat)) :
    keptSnaps (mkCascade tiers) = [] := by
  induction tiers with
  | nil => rfl
  | cons t ts ih => simp [mkCascade, mkBucket] at ih ⊢; exact ih

theorem ms_shuffle {α : Type _} {X T S R O s : Multiset α}
    (h : X + T = s + S) : X + R + (O + T) = s + (S + R + O) := by
  calc X + R + (O + T) = X + T + (R + O) := by abel
    _ = s + S + (R + O) := by rw [h]
    _ = s + (S + R + O) := by abel

theorem ms_tier {α : Type _} {Sp Rj Ov Kb Out Inp Sb Kr R2 : Multiset α}
    (h1 : Sp + Rj + Ov = Inp + Sb) (h2 : Kr + R2 = Kb + (Out + Rj) + Ov) :
    (Sp + Kr) + R2 = (Sb + Kb) + Out + Inp := by
  calc (Sp + Kr) + R2 = Sp + (Kr + R2) := by abel
    _ = Sp + (Kb + (Out + Rj) + Ov) := by rw [h2]
    _ = Kb + Out + (Sp + Rj + Ov) := by abel
    _ = Kb + Out + (Inp + Sb) := by rw [h1]
    _ = (Sb + Kb) + Out + Inp := by abel

theorem somes_set_measure (A : List (Option Snap)) : ∀ (i : Nat) (s : Snap),
    i < A.length →
    (somes (A.set i (some s)) : Multiset Snap) + ((A.getD i none).toList : List Snap)
      = {s} + (somes A : Multiset Snap) := by
  induction A with
  | nil => intro i s h; cases h
  | cons a as ih =>
    intro i s h
    cases i with
    | zero =>
      cases a with
      | none => simp
      | some t =>
        simp only [List.set_cons_zero, List.getD_cons_zero, somes_cons_some,
          Option.toList_some, ← Multiset.cons_coe, ← Multiset.singleton_add]
        abel
    | succ i =>
      have h' : i < as.length := by simpa using h
      have hih := ih i s h'
      cases a with
      | none =>
        simpa [List.set_cons_succ, List.getD_cons_succ] using hih
      | some t =>
        simp only [List.set_cons_succ, List.getD_cons_succ, somes_cons_some,
          ← Multiset.cons_coe, ← Multiset.singleton_add] at hih ⊢
        rw [add_assoc, hih]
        abel

theorem mem_somes_set {A : List (Option Snap)} {i : Nat} {s x : Snap}
    (hi : i < A.length) (hx : x ∈ somes (A.set i (some s))) : x = s ∨ x ∈ somes A := by
  have hms := somes_set_measure A i s hi
  have hmem : x ∈ ({s} : Multiset Snap) + (somes A : List Snap) := by
    rw [← hms]
    exact Multiset.mem_add.mpr (Or.inl (by simpa using hx))
  rcases Multiset.mem_add.mp hmem with h1 | h2
  · exact Or.inl (by simpa using h1)
  · exact Or.inr (by simpa using h2)

theorem passStep_inv (interval : Int) (i : Nat) (s : Snap) (st : PassState)
    (h : PassInv st) : PassInv (passStep interval i s st) := by
  by_cases hc : (0 < i ∧ s.created - st.prevCreated < interval) ∨ st.arr.length = 0
  · simp only [passStep, if_pos hc]
    exact h
  · have hlen0 : st.arr.length ≠ 0 := fun h0 => hc (Or.inr h0)
    simp only [passStep, if_neg hc]
    right
    simpa [List.length_set] using Nat.mod_lt (st.insertAt + 1) (Nat.pos_of_ne_zero hlen0)

theorem passStep_measure (interval : Int) (i : Nat) (s : Snap) (st : PassState)
    (h : PassInv st) :
    passMeasure (passStep interval i s st) = {s} + passMeasure st := by
  by_cases hc : (0 < i ∧ s.created - st.prevCreated < interval) ∨ st.arr.length = 0
  · simp only [passStep, if_pos hc, passMeasure]
    simp only [← Multiset.coe_add, Multiset.coe_singleton]
    abel
  · have hlen : st.insertAt < st.arr.length := by
      rcases h with h0 | h1
      · exact absurd (Or.inr h0) hc
      · exact h1
    simp only [passStep, if_neg hc, passMeasure]
    have hset := somes_set_measure st.arr st.insertAt s hlen
    simp only [← Multiset.coe_add]
    exact ms_shuffle hset

theorem passGo_measure (interval : Int) (l : List Snap) : ∀ (i : Nat) (st : PassState),
    PassInv st →
    passMeasure (passGo interval i l st) = ↑l + passMeasure st
      ∧ PassInv (passGo interval i l st) := by
  induction l with
  | nil =>
    intro i st h
    exact ⟨by simp [passGo], h⟩
  | cons s rest ih =>
    intro i st h
    obtain ⟨hm, hi⟩ := ih (i + 1) (passStep interval i s st) (passStep_inv interval i s st h)
    refine ⟨?_, hi⟩
    show passMeasure (passGo interval (i + 1) rest (passStep interval i s st)) = _
    rw [hm, passStep_measure interval i s st h]
    simp only [← Multiset.cons_coe, ← Multiset.singleton_add]
    abel

theorem pass_measure (b : Bucket) (inp : List Snap) :
    passMeasure (b.pass inp) = ↑inp + ↑(somes b.arr) := by
  have h : PassInv ⟨b.arr, b.len, 0, 0, [], []⟩ := by
    rcases Nat.eq_zero_or_pos b.arr.length with h0 | h1
    · exact Or.inl h0
    · exact Or.inr h1
  have hm := (passGo_measure b.interval inp 0 ⟨b.arr, b.len, 0, 0, [], []⟩ h).1
  rw [Bucket.pass, hm]
  simp [passMeasure]

theorem insertGo_measure (c : List Bucket) : ∀ (inp out : List Snap),
    (keptSnaps (insertGo c inp out).1 : Multiset Snap) + ((insertGo c inp out).2 : List Snap)
      = (keptSnaps c : Multiset Snap) + (out : List Snap) + (inp : List Snap) := by
  induction c with
  | nil =>
    intro inp out
    simp [insertGo, ← Multiset.coe_add]
  | cons b bs ih =>
    intro inp out
    have hb := pass_measure b inp
    simp only [passMeasure] at hb
    have hr := ih (b.pass inp).overflow (out ++ (b.pass inp).rejected)
    simp only [← Multiset.coe_add] at hr
    simp only [insertGo, keptSnaps_cons, ← Multiset.coe_add]
    exact ms_tier hb hr

theorem passGo_nil_arr (interval : Int) (l : List Snap) : ∀ (i : Nat) (st : PassState),
    st.arr = [] → passGo interval i l st = { st with rejected := st.rejected ++ l } := by
  induction l with
  | nil => intro i st h; simp [passGo]
  | cons s rest ih =>
    intro i st h
    have hstep : passStep interval i s st = { st with rejected := st.rejected ++ [s] } := by
      rw [passStep, if_pos (Or.inr (by simp [h]))]
    rw [passGo, hstep, ih (i + 1) _ (by simp [h])]
    simp

theorem insertGo_snd (c : List Bucket) : ∀ (inp out : List Snap),
    (insertGo c inp out).2 = out ++ evictedParts c inp := by
  induction c with
  | nil => intro inp out; rfl
  | cons b bs ih =>
    intro inp out
    simp only [insertGo, evictedParts, ih, List.append_assoc]

theorem passGo_arrLen (interval : Int) (l : List Snap) : ∀ (i : Nat) (st : PassState),
    (passGo interval i l st).arr.length = st.arr.length := by
  induction l with
  | nil => intro i st; simp [passGo]
  | cons s rest ih =>
    intro i st
    show (passGo interval (i + 1) rest (passStep interval i s st)).arr.length = _
    rw [ih]
    rw [passStep]
    split
    · rfl
    · simp [List.length_set]

theorem insertGo_shape (c : List Bucket) : ∀ (inp out : List Snap),
    ((insertGo c inp out).1).map (fun b => (b.interval, b.arr.length))
      = c.map (fun b => (b.interval, b.arr.length)) := by
  induction c with
  | nil => intro inp out; rfl
  | cons b bs ih =>
    intro inp out
    simp only [insertGo, List.map_cons, ih]
    congr 1
    simp [bucketOfPass, Bucket.pass, passGo_arrLen]

theorem insertGo_buckets_from (c : List Bucket) : ∀ (inp out : List Snap),
    ∀ b2 ∈ (insertGo c inp out).1,
      ∃ b ∈ c, ∃ inp2, b2 = bucketOfPass b.interval (b.pass inp2) := by
  induction c with
  | nil => intro inp out b2 h; simp [insertGo] at h
  | cons b bs ih =>
    intro inp out b2 h
    simp only [insertGo, List.mem_cons] at h
    rcases h with rfl | h
    · exact ⟨b, List.mem_cons_self b bs, inp, rfl⟩
    · obtain ⟨b3, hb3, inp2, heq⟩ := ih (b.pass inp).overflow (out ++ (b.pass inp).rejected) b2 h
      exact ⟨b3, List.mem_cons_of_mem b hb3, inp2, heq⟩
theorem passStep_sep {interval : Int} (hpos : 0 < interval) (i : Nat) (hi : 0 < i)
    (s : Snap) (st : PassState) (hinv : PassInv st) (h : PassSep interval st) :
    PassSep interval (passStep interval i s st) := by
  by_cases hc : (0 < i ∧ s.created - st.prevCreated < interval) ∨ st.arr.length = 0
  · simp only [passStep, if_pos hc]
    exact h
  · have hlen0 : st.arr.length ≠ 0 := fun h0 => hc (Or.inr h0)
    have hd : interval ≤ s.created - st.prevCreated := by
      by_contra hlt
      exact hc (Or.inl ⟨hi, lt_of_not_le hlt⟩)
    have hlen : st.insertAt < st.arr.length := by
      rcases hinv with h0 | h1
      · exact absurd h0 hlen0
      · exact h1
    obtain ⟨ha, hb⟩ := h
    simp only [passStep, if_neg hc, PassSep]
    constructor
    · intro x hx
      rcases mem_somes_set hlen hx with rfl | hxold
      · exact le_refl _
      · have := ha x hxold
        omega
    · intro x hx y hy hxy
      rcases mem_somes_set hlen hx with rfl | hxold
      · rcases mem_somes_set hlen hy with rfl | hyold
        · exact absurd rfl hxy
        · left
          have := ha y hyold
          omega
      · rcases mem_somes_set hlen hy with rfl | hyold
        · right
          have := ha x hxold
          omega
        · exact hb x hxold y hyold hxy

theorem passGo_sep {interval : Int} (hpos : 0 < interval) (l : List Snap) :
    ∀ (i : Nat) (st : PassState), 0 < i → PassInv st → PassSep interval st →
    PassSep interval (passGo interval i l st) := by
  induction l with
  | nil => intro i st _ _ hsep; simpa [passGo] using hsep
  | cons s rest ih =>
    intro i st hi hinv hsep
    show PassSep interval (passGo interval (i + 1) rest (passStep interval i s st))
    exact ih (i + 1) _ (Nat.succ_pos i) (passStep_inv interval i s st hinv)
      (passStep_sep hpos i hi s st hinv hsep)

theorem pass_sep (interval : Int) (cap : Nat) (inp : List Snap) :
    ∀ x ∈ somes ((mkBucket interval cap).pass inp).arr,
    ∀ y ∈ somes ((mkBucket interval cap).pass inp).arr, x ≠ y →
      interval ≤ x.created - y.created ∨ interval ≤ y.created - x.created := by
  rcases le_or_lt interval 0 with hneg | hpos
  · intro x _ y _ _
    rcases le_total x.created y.created with hle | hle
    · right; omega
    · left; omega
  · cases inp with
    | nil =>
      intro x hx
      simp [Bucket.pass, passGo, mkBucket] at hx
    | cons s0 rest =>
      have hinv0 : PassInv ⟨List.replicate cap none, 0, 0, 0, [], []⟩ := by
        rcases Nat.eq_zero_or_pos cap with h0 | h1
        · exact Or.inl (by simp [h0])
        · exact Or.inr (by simpa using h1)
      have hsep1 : PassSep interval
          (passStep interval 0 s0 ⟨List.replicate cap none, 0, 0, 0, [], []⟩) := by
        by_cases hc : (0 < (0 : Nat) ∧ s0.created - (0 : Int) < interval)
            ∨ (List.replicate cap none : List (Option Snap)).length = 0
        · simp only [passStep, if_pos hc, PassSep]
          constructor
          · intro x hx; simp at hx
          · intro x hx; simp at hx
        · have hcap : 0 < cap := by
            rcases Nat.eq_zero_or_pos cap with h0 | h1
            · exact absurd (Or.inr (by simp [h0])) hc
            · exact h1
          simp only [passStep, if_neg hc, PassSep]
          obtain ⟨k, rfl⟩ := Nat.exists_eq_add_of_lt hcap
          constructor
          · intro x hx
            simp [List.replicate, List.set_cons_zero] at hx
            subst hx
            exact le_refl _
          · intro x hx y hy hxy
            simp [List.replicate, List.set_cons_zero] at hx hy
            subst hx; subst hy
            exact absurd rfl hxy
      have hfin := passGo_sep hpos rest 1
        (passStep interval 0 s0 ⟨List.replicate cap none, 0, 0, 0, [], []⟩)
        Nat.one_pos (passStep_inv interval 0 s0 _ hinv0) hsep1
      exact hfin.2
theorem sendParentPath_foldl (s : Snap) : ∀ (l : List Snap) (acc : String),
    l.foldl (fun acc hs => if hs.created < s.created then hs.subvolPath else acc) acc
      = ((olderBases l s).map Snap.subvolPath).getLastD acc := by
  intro l
  induction l with
  | nil => intro acc; rfl
  | cons h t ih =>
    intro acc
    by_cases hc : h.created < s.created
    · rw [List.foldl_cons]
      simp only [hc, if_true]
      rw [ih h.subvolPath]
      have hob : olderBases (h :: t) s = h :: olderBases t s := by
        simp [olderBases, List.filter_cons, hc]
      rw [hob, List.map_cons, List.getLastD_cons]
    · rw [List.foldl_cons]
      simp only [hc, if_false]
      rw [ih acc]
      have hob : olderBases (h :: t) s = olderBases t s := by
        simp [olderBases, List.filter_cons, hc]
      rw [hob]

theorem C4_parent_eq_lastOlder (haveS : List Snap) (s : Snap) :
    sendParentPath haveS s = lastOlderPath haveS s :=
  sendParentPath_foldl s haveS ""

theorem sorted_getLastD_spec : ∀ (m : List Snap),
    List.Pairwise (fun a b => a.created ≤ b.created) m → m ≠ [] →
    ∃ p ∈ m, (m.map Snap.subvolPath).getLastD "" = p.subvolPath
      ∧ ∀ q ∈ m, q.created ≤ p.created := by
  intro m
  induction m with
  | nil => intro _ h; exact absurd rfl h
  | cons x t ih =>
    intro hp _
    rw [List.pairwise_cons] at hp
    obtain ⟨hx, ht⟩ := hp
    cases t with
    | nil =>
      refine ⟨x, by simp, by simp, ?_⟩
      intro q hq
      rcases List.mem_cons.mp hq with rfl | hq
      · exact le_refl _
      · cases hq
    | cons y u =>
      obtain ⟨p, hpmem, hpath, hmax⟩ := ih ht (by simp)
      refine ⟨p, List.mem_cons_of_mem x hpmem, ?_, ?_⟩
      · rw [List.map_cons, List.getLastD_cons]
        rw [List.getLastD_eq_getLast?] at hpath ⊢
        cases hlast : ((y :: u).map Snap.subvolPath).getLast? with
        | none =>
          exact absurd hlast (by simp [List.getLast?_eq_none_iff])
        | some z =>
          rw [hlast] at hpath
          simpa [hlast] using hpath
      · intro q hq
        rcases List.mem_cons.mp hq with rfl | hq
        · exact le_trans (hx p hpmem) (le_refl _)
        · exact hmax q hq
theorem backupLoop_spec (uw : List Int) : ∀ (l : List Snap) (hs : List Snap),
    ((backupLoop l uw hs).map Prod.fst
        = l.filter (fun s => ¬ s.created ∈ uw))
    ∧ ∀ k (hk : k < (backupLoop l uw hs).length),
        ((backupLoop l uw hs).get ⟨k, hk⟩).2
          = hs ++ ((backupLoop l uw hs).map Prod.fst).take k := by
  intro l
  induction l with
  | nil =>
    intro hs
    refine ⟨rfl, ?_⟩
    intro k hk
    simp [backupLoop] at hk
  | cons s rest ih =>
    intro hs
    by_cases hc : s.created ∈ uw
    · have hrw : backupLoop (s :: rest) uw hs = backupLoop rest uw hs := by
        rw [backupLoop, if_pos hc]
      obtain ⟨h1, h2⟩ := ih hs
      rw [hrw]
      refine ⟨?_, h2⟩
      rw [h1, List.filter_cons]
      simp [hc]
    · have hrw : backupLoop (s :: rest) uw hs
          = (s, hs) :: backupLoop rest uw (hs ++ [s]) := by
        rw [backupLoop, if_neg hc]
      obtain ⟨h1, h2⟩ := ih (hs ++ [s])
      rw [hrw]
      constructor
      · rw [List.map_cons, h1, List.filter_cons]
        simp [hc]
      · intro k hk
        cases k with
        | zero => simp
        | succ k =>
          have hk' : k < (backupLoop rest uw (hs ++ [s])).length := by
            simpa using hk
          have := h2 k hk'
          simp only [List.get_cons_succ, List.map_cons, List.take_succ_cons]
          rw [this]
          simp

/-! ## The claims -/

/-- C1, counterexample. With tiers (minInterval 10, capacity 2) then
(minInterval 0, capacity 2) and snapshots at times 0 and 5, the snapshot
at time 5 is rejected by the first tier and lands directly in the final
evicted result: the first tier's overflow — the only input the second
tier receives — is empty, so the last tier rejected or displaced
nothing, yet the evicted result is nonempty; had the rejected snapshot
been passed to the second tier's input, that tier (capacity 2, interval
0, empty) would have kept it. This refutes the claim that rejected
snapshots are passed through to the next tier's input and that only
snapshots rejected or displaced out of the last tier are evicted. -/
theorem C1_counterexample :
    (Cascade.insert (mkCascade [(10, 2), (0, 2)]) [⟨"x", "x", 0⟩, ⟨"y", "y", 5⟩]).2
        = [⟨"y", "y", 5⟩]
    ∧ ((mkBucket 10 2).pass (sortByCreated [⟨"x", "x", 0⟩, ⟨"y", "y", 5⟩])).overflow = []
    ∧ ((mkBucket 0 2).pass []).rejected = []
    ∧ ((mkBucket 0 2).pass []).overflow = []
    ∧ keptSnaps (Cascade.insert (mkCascade [(0, 2)]) [⟨"y", "y", 5⟩]).1 = [⟨"y", "y", 5⟩] := by
  decide

/-- C1, amended. A snapshot rejected by a tier (capacity zero, or a
snapshot already kept and the gap below `minInterval`) is appended
directly to the final evicted result, bypassing all coarser tiers; only
snapshots displaced from an occupied ring slot become the next tier's
input; the final evicted result is exactly each tier's rejections, in
tier order, followed by whatever the last tier displaces. -/
theorem C1_rejects_bypass_tiers (c : Cascade) (inp : List Snap) :
    (c.insert inp).2 = evictedParts c (sortByCreated inp) := by
  have h := insertGo_snd c (sortByCreated inp) []
  simpa [Cascade.insert] using h

/-- C2: for every tier list and input list, classification by a freshly
constructed cascade partitions the input exactly: kept (ring contents)
plus evicted is a permutation of the input, and when the input has no
duplicates neither does kept plus evicted (so every input snapshot is in
exactly one of the two and nothing else appears). -/
theorem C2_partition (tiers : List (Int × Nat)) (inp : List Snap) :
    (keptSnaps (Cascade.insert (mkCascade tiers) inp).1
        ++ (Cascade.insert (mkCascade tiers) inp).2).Perm inp
    ∧ (inp.Nodup →
        (keptSnaps (Cascade.insert (mkCascade tiers) inp).1
          ++ (Cascade.insert (mkCascade tiers) inp).2).Nodup) := by
  have hm := insertGo_measure (mkCascade tiers) (sortByCreated inp) []
  have hperm : (keptSnaps (Cascade.insert (mkCascade tiers) inp).1
      ++ (Cascade.insert (mkCascade tiers) inp).2).Perm inp := by
    rw [← Multiset.coe_eq_coe]
    simp only [Cascade.insert, ← Multiset.coe_add]
    rw [hm]
    simp only [keptSnaps_mkCascade, Multiset.coe_nil, zero_add]
    exact Multiset.coe_eq_coe.mpr (sortByCreated_perm inp)
  exact ⟨hperm, fun hnd => hperm.nodup_iff.mpr hnd⟩

/-- C2, witness: the partition theorem applied to one tier (60, 2) and a
duplicate-free two-snapshot input. -/
theorem C2_partition_witness :
    ([(⟨"a", "a", 0⟩ : Snap), ⟨"b", "b", 65⟩] : List Snap).Nodup
    ∧ (keptSnaps (Cascade.insert (mkCascade [(60, 2)]) [⟨"a", "a", 0⟩, ⟨"b", "b", 65⟩]).1
        ++ (Cascade.insert (mkCascade [(60, 2)]) [⟨"a", "a", 0⟩, ⟨"b", "b", 65⟩]).2).Nodup :=
  ⟨by decide, (C2_partition [(60, 2)] [⟨"a", "a", 0⟩, ⟨"b", "b", 65⟩]).2 (by decide)⟩

/-- C3: evaluation at the failing input. One tier (minInterval 1,
capacity 2), snapshots at times 10, 20, 30. The first classification
evicts exactly the snapshot at 10. `reset` nils only the first `len`
ring entries, and after three insertions the visible length is 1 while
slot 1 still holds the snapshot at 20; re-running classification on the
reset cascade displaces that stale occupant, so the second run evicts
the snapshots at 20 and 10 — and simultaneously keeps 20 in the ring —
instead of reproducing the first run's result. The code contradicts the
claimed (and clearly intended) behaviour that reset empties all tiers
and makes classification reproducible. -/
theorem C3_reset_ghost :
    (Cascade.insert (mkCascade [(1, 2)])
        [⟨"1", "1", 10⟩, ⟨"2", "2", 20⟩, ⟨"3", "3", 30⟩]).2 = [⟨"1", "1", 10⟩]
    ∧ (Cascade.insert (Cascade.reset (Cascade.insert (mkCascade [(1, 2)])
          [⟨"1", "1", 10⟩, ⟨"2", "2", 20⟩, ⟨"3", "3", 30⟩]).1)
        [⟨"1", "1", 10⟩, ⟨"2", "2", 20⟩, ⟨"3", "3", 30⟩]).2
      = [⟨"2", "2", 20⟩, ⟨"1", "1", 10⟩]
    ∧ keptSnaps (Cascade.insert (Cascade.reset (Cascade.insert (mkCascade [(1, 2)])
          [⟨"1", "1", 10⟩, ⟨"2", "2", 20⟩, ⟨"3", "3", 30⟩]).1)
        [⟨"1", "1", 10⟩, ⟨"2", "2", 20⟩, ⟨"3", "3", 30⟩]).1
      = [⟨"3", "3", 30⟩, ⟨"2", "2", 20⟩] := by decide

/-- C4, counterexample. A backup run with source snapshots at 150, 200,
250 and destination snapshot at 200 (one permissive tier, so nothing is
unwanted) transfers 150 and then 250; for the transfer of 250 the bases
list is [snap 200, snap 150] and the parent chosen is the subvolume of
the snapshot at 150, although the most recent base strictly older than
250 is the snapshot at 200. -/
theorem C4_counterexample :
    backupTransfers (mkCascade [(1, 10)])
        [⟨"s150", "v150", 150⟩, ⟨"s200", "v200", 200⟩, ⟨"s250", "v250", 250⟩]
        [⟨"d200", "w200", 200⟩]
      = [(⟨"s150", "v150", 150⟩, [⟨"s200", "v200", 200⟩]),
         (⟨"s250", "v250", 250⟩, [⟨"s200", "v200", 200⟩, ⟨"s150", "v150", 150⟩])]
    ∧ sendParentPath [⟨"s200", "v200", 200⟩, ⟨"s150", "v150", 150⟩] ⟨"s250", "v250", 250⟩
        = "v150"
    ∧ (⟨"s200", "v200", 200⟩ : Snap).created < (⟨"s250", "v250", 250⟩ : Snap).created
    ∧ (∀ h ∈ [(⟨"s200", "v200", 200⟩ : Snap), ⟨"s150", "v150", 150⟩],
        h.created < 250 → h.created ≤ 200)
    ∧ "v150" ≠ "v200" := by decide

/-- C4, amended. The delta parent chosen by a single-snapshot transfer
is the base appearing last in the bases list among those strictly older
than the snapshot being sent ("" / no `-p` flag when there is none);
when the bases list is sorted ascending by creation time — as it is for
the first transfer of a run — that element is the most recent strictly
older base; and every element of the bases list is passed as a `-c`
reference point. -/
theorem C4_parent_and_refs (haveS : List Snap) (s : Snap) :
    sendParentPath haveS s = lastOlderPath haveS s
    ∧ (∀ h ∈ haveS, h.subvolPath ∈ sendArgs haveS s)
    ∧ (List.Pairwise (fun a b => a.created ≤ b.created) haveS →
        olderBases haveS s ≠ [] →
        ∃ p ∈ olderBases haveS s, sendParentPath haveS s = p.subvolPath
          ∧ ∀ q ∈ olderBases haveS s, q.created ≤ p.created) := by
  refine ⟨C4_parent_eq_lastOlder haveS s, ?_, ?_⟩
  · intro h hh
    simp only [sendArgs, sendRefArgs, List.mem_append, List.mem_flatMap]
    left; left
    exact Or.inr ⟨h, hh, by simp⟩
  · intro hsorted hne
    have hob : List.Pairwise (fun a b => a.created ≤ b.created) (olderBases haveS s) :=
      List.Pairwise.filter _ hsorted
    obtain ⟨p, hp, hpath, hmax⟩ := sorted_getLastD_spec (olderBases haveS s) hob hne
    refine ⟨p, hp, ?_, hmax⟩
    rw [C4_parent_eq_lastOlder haveS s, lastOlderPath, hpath]

/-- C4, witness: the amended theorem applied to the sorted bases list
[snap 100, snap 200] and a snapshot at 250 (parent: snap 200). -/
theorem C4_parent_and_refs_witness :
    List.Pairwise (fun a b => a.created ≤ b.created)
        [(⟨"s100", "v100", 100⟩ : Snap), ⟨"s200", "v200", 200⟩]
    ∧ olderBases [(⟨"s100", "v100", 100⟩ : Snap), ⟨"s200", "v200", 200⟩]
        ⟨"s250", "v250", 250⟩ ≠ []
    ∧ (∃ p ∈ olderBases [(⟨"s100", "v100", 100⟩ : Snap), ⟨"s200", "v200", 200⟩]
          ⟨"s250", "v250", 250⟩,
        sendParentPath [(⟨"s100", "v100", 100⟩ : Snap), ⟨"s200", "v200", 200⟩]
            ⟨"s250", "v250", 250⟩ = p.subvolPath
          ∧ ∀ q ∈ olderBases [(⟨"s100", "v100", 100⟩ : Snap), ⟨"s200", "v200", 200⟩]
              ⟨"s250", "v250", 250⟩, q.created ≤ p.created) :=
  ⟨by decide, by decide,
    (C4_parent_and_refs [⟨"s100", "v100", 100⟩, ⟨"s200", "v200", 200⟩]
        ⟨"s250", "v250", 250⟩).2.2 (by decide) (by decide)⟩
theorem validateProfiles_ok_subvolume {cfg : ConfigJSON}
    (h : validateProfiles cfg = .ok ()) :
    ∀ np ∈ cfg, (Prod.snd np).subvolume.isSome := by
  induction cfg with
  | nil => intro np hnp; cases hnp
  | cons hd tl ih =>
    obtain ⟨n, p⟩ := hd
    intro np hnp
    simp only [validateProfiles] at h
    cases hv : p.validate with
    | error e => rw [hv] at h; cases h
    | ok u =>
      rw [hv] at h
      rcases List.mem_cons.mp hnp with rfl | hnp'
      · cases hs : p.subvolume with
        | none =>
          rw [ProfileJSON.validate, hs] at hv
          cases hv
        | some v => simp [hs]
      · exact ih h np hnp'

theorem validateProfiles_error_of_missing {cfg : ConfigJSON} {np : String × ProfileJSON}
    (hmem : np ∈ cfg) (hnone : np.2.subvolume = none) :
    ∃ e, validateProfiles cfg = .error e := by
  induction cfg with
  | nil => cases hmem
  | cons hd tl ih =>
    obtain ⟨n, p⟩ := hd
    simp only [validateProfiles]
    cases hv : p.validate with
    | error e => exact ⟨e, rfl⟩
    | ok u =>
      rcases List.mem_cons.mp hmem with rfl | hmem'
      · rw [ProfileJSON.validate, hnone] at hv
        cases hv
      · obtain ⟨e, he⟩ := ih hmem'
        exact ⟨e, he⟩

theorem loadConfig_of_fs_ok {f : String} {fs : String → Except String ConfigJSON}
    {cfg : ConfigJSON} (hfs : fs "config.json" = .ok cfg) :
    loadConfig f fs = match validateProfiles cfg with
      | .error e => .error e
      | .ok _ => .ok cfg := by
  unfold loadConfig
  rw [hfs]


/-- C5: for every tier list with positive capacities and every input,
after classification the cascade's tiers still carry the configured
(minInterval, capacity) pairs, no tier's ring holds more occupants than
its capacity, and any two distinct snapshots kept in the same tier are
at least that tier's minInterval apart in creation time. -/
theorem C5_tier_invariants (tiers : List (Int × Nat)) (inp : List Snap)
    (hcap : ∀ t ∈ tiers, 0 < t.2) :
    ((Cascade.insert (mkCascade tiers) inp).1.map (fun b => (b.interval, b.arr.length)))
        = tiers
    ∧ ∀ b ∈ (Cascade.insert (mkCascade tiers) inp).1,
        (somes b.arr).length ≤ b.arr.length
        ∧ ∀ x ∈ somes b.arr, ∀ y ∈ somes b.arr, x ≠ y →
            b.interval ≤ x.created - y.created ∨ b.interval ≤ y.created - x.created := by
  constructor
  · have hs := insertGo_shape (mkCascade tiers) (sortByCreated inp) []
    show ((insertGo (mkCascade tiers) (sortByCreated inp) []).1.map
      (fun b => (b.interval, b.arr.length))) = tiers
    rw [hs]
    simp only [mkCascade, List.map_map]
    have hfun : ((fun b => (b.interval, b.arr.length)) ∘ fun t : Int × Nat => mkBucket t.1 t.2)
        = fun t : Int × Nat => t := by
      funext t
      simp [mkBucket]
    rw [hfun]
    exact List.map_id tiers
  · intro b hb
    obtain ⟨b0, hb0, inp2, rfl⟩ :=
      insertGo_buckets_from (mkCascade tiers) (sortByCreated inp) [] b hb
    obtain ⟨t, ht, rfl⟩ := List.mem_map.mp hb0
    exact ⟨somes_length_le _, pass_sep t.1 t.2 inp2⟩

/-- C5, witness: the invariants applied to the single positive-capacity
tier (60, 2) and the four-snapshot input of the end-to-end scenario. -/
theorem C5_tier_invariants_witness :
    (∀ t ∈ [((60 : Int), (2 : Nat))], 0 < t.2)
    ∧ (((Cascade.insert (mkCascade [(60, 2)])
          [⟨"a", "a", 0⟩, ⟨"b", "b", 30⟩, ⟨"c", "c", 65⟩, ⟨"d", "d", 125⟩]).1.map
            (fun b => (b.interval, b.arr.length))) = [(60, 2)]) :=
  ⟨by decide,
    (C5_tier_invariants [(60, 2)]
      [⟨"a", "a", 0⟩, ⟨"b", "b", 30⟩, ⟨"c", "c", 65⟩, ⟨"d", "d", 125⟩] (by decide)).1⟩

/-- C6: a backup run attempts a transfer for exactly the needed
snapshots whose timestamp the destination-tier simulation does not
evict, in ascending creation-time order, and the bases list of the k-th
attempted transfer is the sorted `have` list followed by the snapshots
sent before it in the same run. -/
theorem C6_backup_sequence (c : Cascade) (src dst : List Snap) :
    ((backupTransfers c src dst).map Prod.fst
        = (sortByCreated (needOf src dst)).filter
            (fun s => ¬ s.created ∈
              ((backupUnwanted c dst (sortByCreated (needOf src dst))).map
                (fun u => u.created))))
    ∧ List.Pairwise (fun a b => a.created ≤ b.created)
        ((backupTransfers c src dst).map Prod.fst)
    ∧ ∀ k (hk : k < (backupTransfers c src dst).length),
        ((backupTransfers c src dst).get ⟨k, hk⟩).2
          = sortByCreated (haveOf src dst)
            ++ ((backupTransfers c src dst).map Prod.fst).take k := by
  have h := backupLoop_spec
    ((backupUnwanted c dst (sortByCreated (needOf src dst))).map (fun u => u.created))
    (sortByCreated (needOf src dst))
    (sortByCreated (haveOf src dst))
  refine ⟨h.1, ?_, h.2⟩
  have h1 : (backupTransfers c src dst).map Prod.fst
      = (sortByCreated (needOf src dst)).filter
          (fun s => ¬ s.created ∈
            ((backupUnwanted c dst (sortByCreated (needOf src dst))).map
              (fun u => u.created))) := h.1
  rw [h1]
  exact List.Pairwise.filter _ (sortByCreated_pairwise _)

/-- C6, witness: the run of the C4 counterexample has two transfers; the
second transfer's bases are the sorted have list plus the first sent
snapshot. -/
theorem C6_backup_sequence_witness :
    1 < (backupTransfers (mkCascade [(1, 10)])
        [⟨"s150", "v150", 150⟩, ⟨"s200", "v200", 200⟩, ⟨"s250", "v250", 250⟩]
        [⟨"d200", "w200", 200⟩]).length
    ∧ ((backupTransfers (mkCascade [(1, 10)])
        [⟨"s150", "v150", 150⟩, ⟨"s200", "v200", 200⟩, ⟨"s250", "v250", 250⟩]
        [⟨"d200", "w200", 200⟩]).get ⟨1, by decide⟩).2
      = sortByCreated (haveOf
          [⟨"s150", "v150", 150⟩, ⟨"s200", "v200", 200⟩, ⟨"s250", "v250", 250⟩]
          [⟨"d200", "w200", 200⟩])
        ++ ((backupTransfers (mkCascade [(1, 10)])
          [⟨"s150", "v150", 150⟩, ⟨"s200", "v200", 200⟩, ⟨"s250", "v250", 250⟩]
          [⟨"d200", "w200", 200⟩]).map Prod.fst).take 1 :=
  ⟨by decide,
    (C6_backup_sequence (mkCascade [(1, 10)])
      [⟨"s150", "v150", 150⟩, ⟨"s200", "v200", 200⟩, ⟨"s250", "v250", 250⟩]
      [⟨"d200", "w200", 200⟩]).2.2 1 (by decide)⟩

/-- C7: for the single tier (minInterval 60, capacity 2) and snapshots
created at minutes 0, 30, 65 and 125, classification keeps exactly the
snapshots at 65 and 125 (65 and 125 occupy the ring, the snapshot at 0
having been displaced) and evicts exactly those at 30 and 0. -/
theorem C7_single_tier_scenario :
    (Cascade.insert (mkCascade [(60, 2)])
        [⟨"a", "a", 0⟩, ⟨"b", "b", 30⟩, ⟨"c", "c", 65⟩, ⟨"d", "d", 125⟩]).2
      = [⟨"b", "b", 30⟩, ⟨"a", "a", 0⟩]
    ∧ keptSnaps (Cascade.insert (mkCascade [(60, 2)])
        [⟨"a", "a", 0⟩, ⟨"b", "b", 30⟩, ⟨"c", "c", 65⟩, ⟨"d", "d", 125⟩]).1
      = [⟨"d", "d", 125⟩, ⟨"c", "c", 65⟩] := by decide

/-- C8, counterexample. A tier definition with Size = 0 passes
configuration validation (which only checks field presence), is
constructed by `addBucket` without any error, and is handled at
classification time: the zero-capacity tier rejects the offered
snapshot. So a non-positive capacity is not reported as a fatal
configuration error eagerly — it is silently accepted. -/
theorem C8_counterexample :
    BucketJSON.validate ⟨some 3600, some 0⟩ = .ok ()
    ∧ Cascade.addBucket newCascade ⟨some 3600, some 0⟩ = some [mkBucket 3600 0]
    ∧ Cascade.insert [mkBucket 3600 0] [⟨"a", "a", 0⟩]
        = ([mkBucket 3600 0], [⟨"a", "a", 0⟩]) :=
  ⟨rfl, rfl, by decide⟩

/-- C8, amended. Only the constructor `newBucket` — which the
configuration path never calls — checks capacity positivity (it panics
for non-positive sizes). Validation accepts any present Size,
`addBucket` constructs a Size-0 tier without error, and such a tier is
handled at classification time by rejecting every snapshot offered to
it. -/
theorem C8_zero_size_tier_accepted (i : Int) (l : List Snap) :
    BucketJSON.validate ⟨some i, some 0⟩ = .ok ()
    ∧ newBucket i 0 = none
    ∧ Cascade.addBucket newCascade ⟨some i, some 0⟩ = some [mkBucket i 0]
    ∧ Cascade.insert [mkBucket i 0] l = ([mkBucket i 0], sortByCreated l) := by
  refine ⟨rfl, rfl, rfl, ?_⟩
  have hp : Bucket.pass ⟨i, [], 0⟩ (sortByCreated l) =
      ⟨[], 0, 0, 0, sortByCreated l, []⟩ := by
    have h := passGo_nil_arr i (sortByCreated l) 0 ⟨[], 0, 0, 0, [], []⟩ rfl
    simpa [Bucket.pass] using h
  simp [Cascade.insert, insertGo, bucketOfPass, mkBucket, hp]

/-- C9: `loadConfig` opens the fixed relative path "config.json" and
ignores its filename argument entirely, so for any two argument values
(and any state of the working directory, abstracted as `fs`) the result
is identical. -/
theorem C9_loadConfig_ignores_filename (f1 f2 : String)
    (fs : String → Except String ConfigJSON) :
    loadConfig f1 fs = loadConfig f2 fs := rfl

/-- C10: configuration loading succeeds only if every profile in the
table has its Subvolume field set; and a profile whose Subvolume is
absent — as a backup-style profile naming a source profile instead of a
subvolume would decode — makes `loadConfig` return a validation error
(before any operation runs). -/
theorem C10_subvolume_required_at_load (fname : String)
    (fs : String → Except String ConfigJSON) (cfg : ConfigJSON) :
    (loadConfig fname fs = .ok cfg → ∀ np ∈ cfg, (Prod.snd np).subvolume.isSome)
    ∧ (fs "config.json" = .ok cfg →
        ∀ np ∈ cfg, (Prod.snd np).subvolume = none →
          ∃ e, loadConfig fname fs = .error e) := by
  constructor
  · intro h np hnp
    cases hfs : fs "config.json" with
    | error e =>
      unfold loadConfig at h
      rw [hfs] at h
      cases h
    | ok cfg2 =>
      rw [loadConfig_of_fs_ok hfs] at h
      cases hv : validateProfiles cfg2 with
      | error e => rw [hv] at h; cases h
      | ok u =>
        rw [hv] at h
        injection h with h2
        subst h2
        cases u
        exact validateProfiles_ok_subvolume hv np hnp
  · intro hfs np hnp hnone
    obtain ⟨e, he⟩ := validateProfiles_error_of_missing hnp hnone
    refine ⟨e, ?_⟩
    rw [loadConfig_of_fs_ok hfs, he]

/-- C10, witness: a one-profile table whose profile lacks Subvolume is
rejected by loadConfig with an error. -/
theorem C10_subvolume_required_at_load_witness :
    ∃ e, loadConfig "ignored"
        (fun p => if p = "config.json"
          then .ok [("backup", ⟨none, some "/store", []⟩)] else .error "nf")
      = .error e :=
  (C10_subvolume_required_at_load "ignored"
      (fun p => if p = "config.json"
        then .ok [("backup", ⟨none, some "/store", []⟩)] else .error "nf")
      [("backup", ⟨none, some "/store", []⟩)]).2
    (by simp) ("backup", ⟨none, some "/store", []⟩) (by simp) rfl
